import Mathlib

/-!
Verification of the sj_sync position synchronization engine.

The definitions below are a shallow embedding of src/sj_sync/position_sync.py.
Python dictionaries are modelled as association lists in insertion order
(updating an existing key keeps its place, a new key is appended, deletion
removes the entry), which matches the observable ordering semantics of
Python dicts.  Machine integers of the source are modelled as Int.
Functions that can raise in Python return Option.  The logging calls of the
source have no effect on the position state and are omitted.
-/

namespace SjSync

/-- Trade side, mirroring shioaji.constant.Action (members Buy and Sell). -/
inductive Action where
  | Buy
  | Sell
deriving DecidableEq

/-- Equity order condition, mirroring the members of shioaji.constant.StockOrderCond
used by this repository (Cash, MarginTrading, ShortSelling). -/
inductive StockOrderCond where
  | Cash
  | MarginTrading
  | ShortSelling
deriving DecidableEq

/-- Local equity position record, from sj_sync.models.StockPosition as it is
constructed and consumed by position_sync.py (fields code, direction, quantity,
yd_quantity, cond). -/
structure StockPosition where
  code : String
  direction : Action
  quantity : Int
  yd_quantity : Int
  cond : StockOrderCond
deriving DecidableEq

/-- Local futures position record, from sj_sync.models.FuturesPosition as it is
constructed and consumed by position_sync.py (fields code, direction, quantity). -/
structure FuturesPosition where
  code : String
  direction : Action
  quantity : Int
deriving DecidableEq

/-- Account type tag, mirroring shioaji.account.AccountType values used by the code. -/
inductive AccountType where
  | Stock
  | Future
deriving DecidableEq

/-- A shioaji Account as the code reads it: broker_id, account_id, account_type. -/
structure ApiAccount where
  broker_id : String
  account_id : String
  account_type : AccountType
deriving DecidableEq

/-- The account dictionary carried inside a deal event (broker_id and account_id). -/
structure AccountDict where
  broker_id : String
  account_id : String
deriving DecidableEq

/-- PositionSync._get_account_key applied to an AccountDict:
f-string concatenation broker_id + account_id. -/
def getAccountKeyDict (a : AccountDict) : String :=
  a.broker_id ++ a.account_id

/-- PositionSync._get_account_key applied to an Account object:
f-string concatenation broker_id + account_id. -/
def getAccountKeyAcct (a : ApiAccount) : String :=
  a.broker_id ++ a.account_id

/-! ### Association-list model of Python dicts -/

/-- Dict lookup: first entry with the given key, none if absent. -/
def alookup {α β : Type} [DecidableEq α] : List (α × β) → α → Option β
  | [], _ => none
  | (k, v) :: rest, a => if k = a then some v else alookup rest a

/-- Dict write d[a] = b: replace in place if the key is present, append otherwise. -/
def ainsert {α β : Type} [DecidableEq α] : List (α × β) → α → β → List (α × β)
  | [], a, b => [(a, b)]
  | (k, v) :: rest, a, b =>
    if k = a then (a, b) :: rest else (k, v) :: ainsert rest a b

/-- Dict deletion del d[a]: drop the entry with the given key. -/
def aerase {α β : Type} [DecidableEq α] : List (α × β) → α → List (α × β)
  | [], _ => []
  | (k, v) :: rest, a => if k = a then rest else (k, v) :: aerase rest a

/-- Keys of the association list are pairwise distinct, as they are in a dict. -/
def NodupKeys {α β : Type} (m : List (α × β)) : Prop :=
  (m.map Prod.fst).Nodup

instance {α β : Type} [DecidableEq α] [DecidableEq β] (m : List (α × β)) :
    Decidable (NodupKeys m) := by
  unfold NodupKeys; infer_instance

/-! ### The position state -/

/-- Key of the per-account stock map: (code, order condition). -/
abbrev StockKey := String × StockOrderCond

/-- Per-account stock map: (code, cond) to StockPosition. -/
abbrev StockAcctMap := List (StockKey × StockPosition)

/-- Per-account futures map: code to FuturesPosition. -/
abbrev FuturesAcctMap := List (String × FuturesPosition)

/-- The mutable state of PositionSync: _stock_positions and _futures_positions,
both keyed by the account key string. -/
structure SyncState where
  stock : List (String × StockAcctMap)
  futures : List (String × FuturesAcctMap)
deriving DecidableEq

/-- The state right after construction, before _initialize_positions runs. -/
def SyncState.empty : SyncState := ⟨[], []⟩

/-! ### Deal events and normalization -/

/-- A deal event dictionary as read by _update_position: the fields it extracts,
each optional because the dict may omit it.  The remaining keys of the real
event dict (trade_id, seqno, ts, ...) are never read and are not modelled.
The price is informational; the source reads it as a float and only logs it,
so Int is an adequate model. -/
structure DealEvent where
  code : Option String
  action : Option String
  quantity : Option Int
  price : Option Int
  account : Option AccountDict
  order_cond : Option String
deriving DecidableEq

/-- PositionSync._normalize_direction on a string: the strings Buy and buy map to
Action.Buy, Sell and sell to Action.Sell; the fallback enum lookup by name
succeeds exactly on the member names Buy and Sell, which the earlier branches
already cover, so any other string raises KeyError (modelled as none). -/
def normalizeDirection (s : String) : Option Action :=
  if s = "Buy" ∨ s = "buy" then some Action.Buy
  else if s = "Sell" ∨ s = "sell" then some Action.Sell
  else none

/-- PositionSync._normalize_cond on a string: enum lookup by member name with a
fallback to Cash on KeyError. -/
def normalizeCond (s : String) : StockOrderCond :=
  if s = "Cash" then StockOrderCond.Cash
  else if s = "MarginTrading" then StockOrderCond.MarginTrading
  else if s = "ShortSelling" then StockOrderCond.ShortSelling
  else StockOrderCond.Cash

/-! ### Position updates -/

/-- PositionSync._update_stock_position.  The account sub-dict is created when
absent; the position at (code, order_cond) is created with yd_quantity 0, or
updated by adding the quantity on a matching direction and subtracting it on the
opposite one; a changed order condition re-keys the entry; a resulting quantity
of exactly 0 deletes the entry.  The price parameter is only logged by the
source and never read.  The in-place mutation of the looked-up position object
is modelled by writing the updated record back at its key before the re-key and
zero-deletion steps. -/
def updateStockPosition (st : SyncState) (accountKey code : String) (action : Action)
    (quantity : Int) (price : Int) (order_cond : StockOrderCond) : SyncState :=
  let acctMap := (alookup st.stock accountKey).getD []
  let key : StockKey := (code, order_cond)
  let newMap :=
    match alookup acctMap key with
    | none =>
      ainsert acctMap key
        { code := code, direction := action, quantity := quantity,
          yd_quantity := 0, cond := order_cond }
    | some p0 =>
      let p1 : StockPosition :=
        if p0.direction = action then { p0 with quantity := p0.quantity + quantity }
        else { p0 with quantity := p0.quantity - quantity }
      let m1 := ainsert acctMap key p1
      let m2 :=
        if p1.cond ≠ order_cond then
          ainsert (aerase m1 key) (code, order_cond) { p1 with cond := order_cond }
        else m1
      let p2 := if p1.cond ≠ order_cond then { p1 with cond := order_cond } else p1
      if p2.quantity = 0 then aerase m2 key else m2
  { st with stock := ainsert st.stock accountKey newMap }

/-- PositionSync._update_futures_position: same add/subtract-by-direction and
zero-deletion logic keyed by code alone; price is only logged. -/
def updateFuturesPosition (st : SyncState) (accountKey code : String) (action : Action)
    (quantity : Int) (price : Int) : SyncState :=
  let acctMap := (alookup st.futures accountKey).getD []
  let newMap :=
    match alookup acctMap code with
    | none =>
      ainsert acctMap code { code := code, direction := action, quantity := quantity }
    | some p0 =>
      let p1 : FuturesPosition :=
        if p0.direction = action then { p0 with quantity := p0.quantity + quantity }
        else { p0 with quantity := p0.quantity - quantity }
      if p1.quantity = 0 then aerase (ainsert acctMap code p1) code
      else ainsert acctMap code p1
  { st with futures := ainsert st.futures accountKey newMap }

/-- PositionSync._update_position: extract code, action, quantity (default 0),
price (default 0) and account from the event dict; if code, action or account is
missing or falsy, warn and return with no mutation; otherwise normalize the
direction (none models the KeyError raised on an unknown action string) and
dispatch to the futures or stock update, defaulting the order condition to
Cash. -/
def updatePosition (st : SyncState) (deal : DealEvent) (is_futures : Bool) :
    Option SyncState :=
  let quantity := deal.quantity.getD 0
  let price := deal.price.getD 0
  match deal.code, deal.action, deal.account with
  | some code, some action_value, some account =>
    if code = "" ∨ action_value = "" then some st
    else
      match normalizeDirection action_value with
      | none => none
      | some action =>
        if is_futures then
          some (updateFuturesPosition st (getAccountKeyDict account) code action
            quantity price)
        else
          let order_cond := normalizeCond (deal.order_cond.getD "Cash")
          some (updateStockPosition st (getAccountKeyDict account) code action
            quantity price order_cond)
  | _, _, _ => some st

/-! ### Initialization from the authoritative source -/

/-- An authoritative stock position record (shioaji.position.StockPosition) as
read by _initialize_positions: code, direction, quantity, yd_quantity, cond. -/
structure ApiStockPnl where
  code : String
  direction : Action
  quantity : Int
  yd_quantity : Int
  cond : StockOrderCond
deriving DecidableEq

/-- An authoritative futures position record (shioaji.position.FuturePosition)
as read by _initialize_positions: code, direction, quantity. -/
structure ApiFuturesPnl where
  code : String
  direction : Action
  quantity : Int
deriving DecidableEq

/-- One element of an api.list_positions result; the source distinguishes the
two shapes with isinstance checks. -/
inductive ApiPnl where
  | stk (p : ApiStockPnl)
  | fut (p : ApiFuturesPnl)
deriving DecidableEq

/-- Loop body of _initialize_positions for a Stock account: records that are
instances of the stock shape are stored at (code, cond); the rest are skipped.
The account sub-dict is created on first insertion.  The source applies no
filter on the quantity. -/
def initStockPnl (st : SyncState) (accountKey : String) (pnl : ApiPnl) : SyncState :=
  match pnl with
  | ApiPnl.stk p =>
    let position : StockPosition :=
      { code := p.code, direction := p.direction, quantity := p.quantity,
        yd_quantity := p.yd_quantity, cond := p.cond }
    let acctMap := (alookup st.stock accountKey).getD []
    let newMap := ainsert acctMap (position.code, position.cond) position
    { st with stock := ainsert st.stock accountKey newMap }
  | ApiPnl.fut _ => st

/-- Loop body of _initialize_positions for a Future account: records that are
instances of the futures shape are stored at their code; the rest are skipped. -/
def initFuturesPnl (st : SyncState) (accountKey : String) (pnl : ApiPnl) : SyncState :=
  match pnl with
  | ApiPnl.fut p =>
    let position : FuturesPosition :=
      { code := p.code, direction := p.direction, quantity := p.quantity }
    let acctMap := (alookup st.futures accountKey).getD []
    let newMap := ainsert acctMap position.code position
    { st with futures := ainsert st.futures accountKey newMap }
  | ApiPnl.stk _ => st

/-- Per-account step of _initialize_positions: a failing api.list_positions call
(resp = none) skips the account; otherwise the records are folded in according
to the account type. -/
def initAccount (st : SyncState) (account : ApiAccount)
    (resp : Option (List ApiPnl)) : SyncState :=
  match resp with
  | none => st
  | some positions_pnl =>
    match account.account_type with
    | AccountType.Stock =>
      positions_pnl.foldl (fun s p => initStockPnl s (getAccountKeyAcct account) p) st
    | AccountType.Future =>
      positions_pnl.foldl (fun s p => initFuturesPnl s (getAccountKeyAcct account) p) st

/-- PositionSync._initialize_positions: fold over api.list_accounts, where each
account is paired with the response of its api.list_positions call (none when
the call raised). -/
def initializePositions (accounts : List (ApiAccount × Option (List ApiPnl))) :
    SyncState :=
  accounts.foldl (fun s ap => initAccount s ap.1 ap.2) SyncState.empty

/-! ### Reads -/

/-- The default accounts of the api object consulted by list_positions; a
missing attribute and a None value both behave as absence and are modelled as
none. -/
structure ApiDefaults where
  stock_account : Option ApiAccount
  futopt_account : Option ApiAccount
deriving DecidableEq

/-- Result of list_positions: a list of stock positions or a list of futures
positions.  The bare empty list the source returns when nothing is found is
modelled as stocks []. -/
inductive PositionsResult where
  | stocks (l : List StockPosition)
  | futs (l : List FuturesPosition)
deriving DecidableEq

/-- PositionSync.list_positions with account=None: if a default stock account
exists and its key is present in _stock_positions, return that dict's values;
otherwise, if a default futures account exists and its key is present in
_futures_positions, return that dict's values; otherwise return the empty
list.  Note the source tests key presence, not non-emptiness of the sub-dict. -/
def listPositionsDefault (api : ApiDefaults) (st : SyncState) : PositionsResult :=
  let tryFut : PositionsResult :=
    match api.futopt_account with
    | some fa =>
      match alookup st.futures (getAccountKeyAcct fa) with
      | some m => PositionsResult.futs (m.map Prod.snd)
      | none => PositionsResult.stocks []
    | none => PositionsResult.stocks []
  match api.stock_account with
  | some sa =>
    match alookup st.stock (getAccountKeyAcct sa) with
    | some m => PositionsResult.stocks (m.map Prod.snd)
    | none => tryFut
  | none => tryFut

/-- PositionSync.list_positions with an explicit account: return that account's
positions of the matching instrument class, or the empty list. -/
def listPositionsAccount (st : SyncState) (account : ApiAccount) : PositionsResult :=
  match account.account_type with
  | AccountType.Stock =>
    match alookup st.stock (getAccountKeyAcct account) with
    | some m => PositionsResult.stocks (m.map Prod.snd)
    | none => PositionsResult.stocks []
  | AccountType.Future =>
    match alookup st.futures (getAccountKeyAcct account) with
    | some m => PositionsResult.futs (m.map Prod.snd)
    | none => PositionsResult.futs []

/-- The order states dispatched by on_order_deal_event; every other OrderState
value is ignored and collapsed into OtherState. -/
inductive OrderState where
  | StockDeal
  | FuturesDeal
  | OtherState
deriving DecidableEq

/-- PositionSync.on_order_deal_event: stock deals and futures deals go through
_update_position; any other order state is ignored. -/
def onOrderDealEvent (st : SyncState) (state : OrderState) (data : DealEvent) :
    Option SyncState :=
  match state with
  | OrderState.StockDeal => updatePosition st data false
  | OrderState.FuturesDeal => updatePosition st data true
  | OrderState.OtherState => some st

/-! ### Reachable states -/

/-- States of PositionSync that can arise in a run: the state produced by
_initialize_positions for some account enumeration, followed by any sequence of
successfully handled deal callbacks. -/
inductive Reachable : SyncState → Prop where
  | init (accounts : List (ApiAccount × Option (List ApiPnl))) :
      Reachable (initializePositions accounts)
  | step (st : SyncState) (os : OrderState) (d : DealEvent) (st' : SyncState) :
      Reachable st → onOrderDealEvent st os d = some st' → Reachable st'

/-! ### Smart sync, modelled from the spec -/

/-- Modelled from the spec: the staleness tracker predicate is-unstable of
section 4.3, implemented by the PositionSync._in_unstable_period and
_last_deal_time members that the test suite exercises but whose source is not
under src.  False if the threshold is not positive (feature disabled) or no
deal timestamp is recorded for the account; otherwise true iff now minus the
last deal timestamp is below the threshold.  Time is in whole seconds. -/
def inUnstablePeriod (sync_threshold : Int) (lastDeal : Option Int) (now : Int) : Bool :=
  if sync_threshold ≤ 0 then false
  else
    match lastDeal with
    | none => false
    | some t => now - t < sync_threshold

/-- Modelled from the spec: the number of authoritative api.list_positions calls
a single read performs in the smart-sync read path of section 4.5, implemented
by the PositionSync.list_positions variant with a sync_threshold that the test
suite exercises but whose source is not under src.  With the feature disabled
or the account inside its unstable period the read is served locally with no
authoritative call; otherwise exactly one synchronous authoritative call is
made. -/
def authoritativeCallCount (sync_threshold : Int) (lastDeal : Option Int)
    (now : Int) : Nat :=
  if sync_threshold ≤ 0 then 0
  else if inUnstablePeriod sync_threshold lastDeal now then 0 else 1

/-! ### Reconciliation, modelled from the spec -/

/-- Modelled from the spec: the equity reconciliation of section 4.4,
implemented by the PositionSync._handle_inconsistencies_stock and
_compare_and_sync_stock members that the test suite exercises but whose source
is not under src.  Keys present on both sides with differing quantities take
the authoritative quantity and yesterday quantity (authoritative wins); keys
present only in the authoritative list are inserted; keys present only locally
are deleted.  The recomputation of the day-trade offset from trade history
concerns a field that does not bear on the reconciled quantity and is not
modelled. -/
def reconcileStock (auth : List ApiStockPnl) (m : StockAcctMap) : StockAcctMap :=
  let m1 := auth.foldl
    (fun acc p =>
      let key : StockKey := (p.code, p.cond)
      match alookup acc key with
      | some q =>
        if q.quantity ≠ p.quantity then
          ainsert acc key { q with quantity := p.quantity, yd_quantity := p.yd_quantity }
        else acc
      | none =>
        ainsert acc key
          { code := p.code, direction := p.direction, quantity := p.quantity,
            yd_quantity := p.yd_quantity, cond := p.cond }) m
  m1.filter (fun kv => auth.any (fun p => decide ((p.code, p.cond) = kv.1)))

/-! ### The default-read resolution order in the words of the spec -/

/-- The list-default resolution order exactly as the spec states it, for
comparison with listPositionsDefault: prefer the default stock account if it
holds at least one equity position, fall back to the default futures account's
positions if it holds any, otherwise return the empty list. -/
def listDefaultResolutionSpec (api : ApiDefaults) (st : SyncState) : PositionsResult :=
  let stockVals : List StockPosition :=
    match api.stock_account with
    | some sa => ((alookup st.stock (getAccountKeyAcct sa)).getD []).map Prod.snd
    | none => []
  let futVals : List FuturesPosition :=
    match api.futopt_account with
    | some fa => ((alookup st.futures (getAccountKeyAcct fa)).getD []).map Prod.snd
    | none => []
  if stockVals ≠ [] then PositionsResult.stocks stockVals
  else if futVals ≠ [] then PositionsResult.futs futVals
  else PositionsResult.stocks []

/-! ### Signed sums of deal sequences -/

/-- The signed contribution of one deal: buys count positive, sells negative. -/
def signedQuantity (a : Action) (q : Int) : Int :=
  match a with
  | Action.Buy => q
  | Action.Sell => -q

/-- The signed sum of a sequence of deals on one key. -/
def signedSum : List (Action × Int) → Int
  | [] => 0
  | d :: rest => signedQuantity d.1 d.2 + signedSum rest

/-- A sequence of same-key stock deals applied to the initially empty ledger. -/
def applyStockDeals (ak code : String) (cond : StockOrderCond)
    (deals : List (Action × Int)) : SyncState :=
  deals.foldl (fun st d => updateStockPosition st ak code d.1 d.2 0 cond)
    SyncState.empty

/-- The stock sub-dict of one account, empty when the account key is absent. -/
def stockInner (st : SyncState) (ak : String) : StockAcctMap :=
  (alookup st.stock ak).getD []

/-- The futures sub-dict of one account, empty when the account key is absent. -/
def futuresInner (st : SyncState) (ak : String) : FuturesAcctMap :=
  (alookup st.futures ak).getD []

/-- Every stored stock entry agrees with its key: the position's code and cond
fields equal the components of the key it is filed under. -/
def StockEntriesConsistent (st : SyncState) : Prop :=
  ∀ e ∈ st.stock, ∀ kp ∈ e.2, kp.2.code = kp.1.1 ∧ kp.2.cond = kp.1.2

/-- The signed value represented by one optional position slot: absent counts 0,
a Buy position counts its quantity positively, a Sell position negatively. -/
def signedVal : Option StockPosition → Int
  | none => 0
  | some p => signedQuantity p.direction p.quantity

/-! ## Lemmas about the association-list dict model -/

theorem alookup_ainsert_self {α β : Type} [DecidableEq α] (m : List (α × β))
    (a : α) (b : β) : alookup (ainsert m a b) a = some b := by
  induction m with
  | nil => simp [ainsert, alookup]
  | cons kv rest ih =>
    obtain ⟨k, v⟩ := kv
    by_cases h : k = a
    · simp [ainsert, alookup, h]
    · simp [ainsert, alookup, h, ih]

theorem alookup_ainsert_ne {α β : Type} [DecidableEq α] {m : List (α × β)}
    {a a' : α} {b : β} (h : a ≠ a') :
    alookup (ainsert m a b) a' = alookup m a' := by
  induction m with
  | nil => simp [ainsert, alookup, h]
  | cons kv rest ih =>
    obtain ⟨k, v⟩ := kv
    by_cases hk : k = a
    · subst hk
      simp [ainsert, alookup, h]
    · simp [ainsert, alookup, hk, ih]

theorem alookup_aerase_ne {α β : Type} [DecidableEq α] {m : List (α × β)}
    {a a' : α} (h : a ≠ a') :
    alookup (aerase m a) a' = alookup m a' := by
  induction m with
  | nil => simp [aerase]
  | cons kv rest ih =>
    obtain ⟨k, v⟩ := kv
    by_cases hk : k = a
    · subst hk
      simp [aerase, alookup, h]
    · simp [aerase, alookup, hk, ih]

theorem aerase_sublist {α β : Type} [DecidableEq α] (m : List (α × β)) (a : α) :
    (aerase m a).Sublist m := by
  induction m with
  | nil => simp [aerase]
  | cons kv rest ih =>
    obtain ⟨k, v⟩ := kv
    by_cases hk : k = a
    · simp only [aerase, hk, if_pos]
      exact List.sublist_cons_self _ _
    · simp only [aerase, hk, if_neg, not_false_iff]
      exact ih.cons₂ _

theorem mem_ainsert {α β : Type} [DecidableEq α] (m : List (α × β)) (a : α)
    (b : β) (x : α × β) (hx : x ∈ ainsert m a b) : x = (a, b) ∨ x ∈ m := by
  induction m with
  | nil => simpa [ainsert] using hx
  | cons kv rest ih =>
    obtain ⟨k, v⟩ := kv
    by_cases hk : k = a
    · simp only [ainsert, hk, if_pos, List.mem_cons] at hx
      rcases hx with h | h
      · exact Or.inl h
      · exact Or.inr (List.mem_cons_of_mem _ h)
    · simp only [ainsert, hk, if_neg, not_false_iff, List.mem_cons] at hx
      rcases hx with h | h
      · exact Or.inr (by simp [h])
      · rcases ih h with h' | h'
        · exact Or.inl h'
        · exact Or.inr (List.mem_cons_of_mem _ h')

theorem alookup_mem {α β : Type} [DecidableEq α] (m : List (α × β)) (a : α)
    (b : β) (h : alookup m a = some b) : (a, b) ∈ m := by
  induction m with
  | nil => simp [alookup] at h
  | cons kv rest ih =>
    obtain ⟨k, v⟩ := kv
    by_cases hk : k = a
    · subst hk
      simp only [alookup, if_pos, Option.some.injEq] at h
      simp [h]
    · simp only [alookup, hk, if_neg, not_false_iff] at h
      exact List.mem_cons_of_mem _ (ih h)

theorem alookup_eq_none {α β : Type} [DecidableEq α] (m : List (α × β)) (a : α)
    (h : a ∉ m.map Prod.fst) : alookup m a = none := by
  induction m with
  | nil => simp [alookup]
  | cons kv rest ih =>
    obtain ⟨k, v⟩ := kv
    simp only [List.map_cons, List.mem_cons] at h
    push_neg at h
    simp [alookup, Ne.symm h.1, ih h.2]

theorem mem_keys_ainsert {α β : Type} [DecidableEq α] (m : List (α × β)) (a : α)
    (b : β) (x : α) (hx : x ∈ (ainsert m a b).map Prod.fst) :
    x = a ∨ x ∈ m.map Prod.fst := by
  rcases List.mem_map.mp hx with ⟨kv, hkv, hfst⟩
  rcases mem_ainsert m a b kv hkv with h | h
  · subst h
    exact Or.inl (by simpa using hfst.symm)
  · exact Or.inr (List.mem_map.mpr ⟨kv, h, hfst⟩)

theorem nodupKeys_ainsert {α β : Type} [DecidableEq α] (m : List (α × β))
    (a : α) (b : β) (h : NodupKeys m) : NodupKeys (ainsert m a b) := by
  induction m with
  | nil => simp [ainsert, NodupKeys]
  | cons kv rest ih =>
    obtain ⟨k, v⟩ := kv
    unfold NodupKeys at h
    simp only [List.map_cons, List.nodup_cons] at h
    by_cases hk : k = a
    · subst hk
      unfold NodupKeys
      simp only [ainsert, if_pos, List.map_cons, List.nodup_cons]
      exact h
    · unfold NodupKeys
      simp only [ainsert, hk, if_neg, not_false_iff, List.map_cons, List.nodup_cons]
      refine ⟨fun hmem => ?_, ih h.2⟩
      rcases mem_keys_ainsert rest a b k hmem with h' | h'
      · exact hk h'
      · exact h.1 h'

theorem nodupKeys_aerase {α β : Type} [DecidableEq α] (m : List (α × β))
    (a : α) (h : NodupKeys m) : NodupKeys (aerase m a) :=
  List.Nodup.sublist (List.Sublist.map Prod.fst (aerase_sublist m a)) h

theorem alookup_aerase_self {α β : Type} [DecidableEq α] (m : List (α × β))
    (a : α) (h : NodupKeys m) : alookup (aerase m a) a = none := by
  induction m with
  | nil => simp [aerase, alookup]
  | cons kv rest ih =>
    obtain ⟨k, v⟩ := kv
    unfold NodupKeys at h
    simp only [List.map_cons, List.nodup_cons] at h
    by_cases hk : k = a
    · subst hk
      simp only [aerase, if_pos]
      exact alookup_eq_none rest k h.1
    · simp only [aerase, hk, if_neg, not_false_iff, alookup]
      exact ih h.2

/-! ## Single-step behavior of the update functions -/

theorem stockInner_update_self (st : SyncState) (ak code : String) (a : Action)
    (q pr : Int) (cond : StockOrderCond)
    (hnd : NodupKeys (stockInner st ak))
    (hcond : ∀ p, alookup (stockInner st ak) (code, cond) = some p → p.cond = cond) :
    alookup (stockInner (updateStockPosition st ak code a q pr cond) ak) (code, cond) =
      match alookup (stockInner st ak) (code, cond) with
      | none =>
        some { code := code, direction := a, quantity := q, yd_quantity := 0,
               cond := cond }
      | some p =>
        if (if p.direction = a then p.quantity + q else p.quantity - q) = 0 then none
        else some { p with
          quantity := if p.direction = a then p.quantity + q else p.quantity - q } := by
  simp only [stockInner] at hnd hcond ⊢
  unfold updateStockPosition
  simp only [alookup_ainsert_self, Option.getD_some]
  cases h : alookup ((alookup st.stock ak).getD []) (code, cond) with
  | none => simp [alookup_ainsert_self]
  | some p =>
    have hpc : p.cond = cond := hcond p h
    simp only []
    have hg : ¬((if p.direction = a then { p with quantity := p.quantity + q }
        else { p with quantity := p.quantity - q } : StockPosition).cond ≠ cond) := by
      simp [apply_ite StockPosition.cond, hpc]
    rw [if_neg hg, if_neg hg]
    rw [← apply_ite (fun z => ({ p with quantity := z } : StockPosition))
      (p.direction = a) (p.quantity + q) (p.quantity - q)]
    simp only []
    by_cases hq : (if p.direction = a then p.quantity + q else p.quantity - q) = 0
    · rw [if_pos hq, if_pos hq]
      exact alookup_aerase_self _ _ (nodupKeys_ainsert _ _ _ hnd)
    · rw [if_neg hq, if_neg hq]
      exact alookup_ainsert_self _ _ _

theorem nodupKeys_stockInner_update (st : SyncState) (ak code : String) (a : Action)
    (q pr : Int) (cond : StockOrderCond) (hnd : NodupKeys (stockInner st ak)) :
    NodupKeys (stockInner (updateStockPosition st ak code a q pr cond) ak) := by
  simp only [stockInner] at hnd ⊢
  unfold updateStockPosition
  simp only [alookup_ainsert_self, Option.getD_some]
  cases h : alookup ((alookup st.stock ak).getD []) (code, cond) with
  | none => exact nodupKeys_ainsert _ _ _ hnd
  | some p =>
    simp only []
    repeat' split
    all_goals first
      | exact nodupKeys_aerase _ _
          (nodupKeys_ainsert _ _ _ (nodupKeys_aerase _ _ (nodupKeys_ainsert _ _ _ hnd)))
      | exact nodupKeys_ainsert _ _ _ (nodupKeys_aerase _ _ (nodupKeys_ainsert _ _ _ hnd))
      | exact nodupKeys_aerase _ _ (nodupKeys_ainsert _ _ _ hnd)
      | exact nodupKeys_ainsert _ _ _ hnd

theorem updateStock_frame (st : SyncState) (ak code : String) (a : Action)
    (q pr : Int) (cond : StockOrderCond) :
    (updateStockPosition st ak code a q pr cond).futures = st.futures
    ∧ (∀ ak', ak' ≠ ak →
        alookup (updateStockPosition st ak code a q pr cond).stock ak'
          = alookup st.stock ak')
    ∧ (∀ k, k ≠ (code, cond) →
        alookup (stockInner (updateStockPosition st ak code a q pr cond) ak) k
          = alookup (stockInner st ak) k) := by
  refine ⟨rfl, fun ak' hne => ?_, fun k hk => ?_⟩
  · unfold updateStockPosition
    exact alookup_ainsert_ne (Ne.symm hne)
  · simp only [stockInner]
    unfold updateStockPosition
    simp only [alookup_ainsert_self, Option.getD_some]
    have hk' : ((code, cond) : StockKey) ≠ k := Ne.symm hk
    cases h : alookup ((alookup st.stock ak).getD []) (code, cond) with
    | none => exact alookup_ainsert_ne hk'
    | some p =>
      simp only []
      repeat' split
      all_goals simp only [alookup_aerase_ne hk', alookup_ainsert_ne hk']

theorem futuresInner_update_self (st : SyncState) (ak code : String) (a : Action)
    (q pr : Int) (hnd : NodupKeys (futuresInner st ak)) :
    alookup (futuresInner (updateFuturesPosition st ak code a q pr) ak) code =
      match alookup (futuresInner st ak) code with
      | none => some { code := code, direction := a, quantity := q }
      | some p =>
        if (if p.direction = a then p.quantity + q else p.quantity - q) = 0 then none
        else some { p with
          quantity := if p.direction = a then p.quantity + q else p.quantity - q } := by
  simp only [futuresInner] at hnd ⊢
  unfold updateFuturesPosition
  simp only [alookup_ainsert_self, Option.getD_some]
  cases h : alookup ((alookup st.futures ak).getD []) code with
  | none => simp [alookup_ainsert_self]
  | some p =>
    simp only []
    rw [← apply_ite (fun z => ({ p with quantity := z } : FuturesPosition))
      (p.direction = a) (p.quantity + q) (p.quantity - q)]
    simp only []
    by_cases hq : (if p.direction = a then p.quantity + q else p.quantity - q) = 0
    · rw [if_pos hq, if_pos hq]
      exact alookup_aerase_self _ _ (nodupKeys_ainsert _ _ _ hnd)
    · rw [if_neg hq, if_neg hq]
      exact alookup_ainsert_self _ _ _

theorem updateFutures_frame (st : SyncState) (ak code : String) (a : Action)
    (q pr : Int) :
    (updateFuturesPosition st ak code a q pr).stock = st.stock
    ∧ (∀ ak', ak' ≠ ak →
        alookup (updateFuturesPosition st ak code a q pr).futures ak'
          = alookup st.futures ak')
    ∧ (∀ c, c ≠ code →
        alookup (futuresInner (updateFuturesPosition st ak code a q pr) ak) c
          = alookup (futuresInner st ak) c) := by
  refine ⟨rfl, fun ak' hne => ?_, fun c hc => ?_⟩
  · unfold updateFuturesPosition
    exact alookup_ainsert_ne (Ne.symm hne)
  · simp only [futuresInner]
    unfold updateFuturesPosition
    simp only [alookup_ainsert_self, Option.getD_some]
    have hc' : code ≠ c := Ne.symm hc
    cases h : alookup ((alookup st.futures ak).getD []) code with
    | none => exact alookup_ainsert_ne hc'
    | some p =>
      simp only []
      repeat' split
      all_goals simp only [alookup_aerase_ne hc', alookup_ainsert_ne hc']

/-! ## Key consistency of the stock map -/

theorem foldl_preserve {σ χ : Type} {P : σ → Prop} {f : σ → χ → σ}
    (hf : ∀ s x, P s → P (f s x)) :
    ∀ (l : List χ) (s : σ), P s → P (l.foldl f s)
  | [], _, hs => hs
  | x :: rest, s, hs => foldl_preserve hf rest (f s x) (hf s x hs)

theorem consistent_of_same_stock {st st' : SyncState} (hs : st'.stock = st.stock)
    (h : StockEntriesConsistent st) : StockEntriesConsistent st' := by
  intro e he kp hkp
  exact h e (hs ▸ he) kp hkp

theorem inner_consistent (st : SyncState) (ak : String)
    (h : StockEntriesConsistent st) :
    ∀ kp ∈ (alookup st.stock ak).getD [], kp.2.code = kp.1.1 ∧ kp.2.cond = kp.1.2 := by
  cases hm : alookup st.stock ak with
  | none => simp
  | some m =>
    intro kp hkp
    exact h (ak, m) (alookup_mem _ _ _ hm) kp hkp

theorem consistent_updateStock (st : SyncState) (ak code : String) (a : Action)
    (q pr : Int) (cond : StockOrderCond) (h : StockEntriesConsistent st) :
    StockEntriesConsistent (updateStockPosition st ak code a q pr cond) := by
  have hinner := inner_consistent st ak h
  intro e he kp hkp
  unfold updateStockPosition at he
  rcases mem_ainsert _ _ _ _ he with he1 | he1
  · subst he1
    simp only [] at hkp
    cases hm2 : alookup ((alookup st.stock ak).getD []) (code, cond) with
    | none =>
      rw [hm2] at hkp
      simp only [] at hkp
      rcases mem_ainsert _ _ _ _ hkp with hk1 | hk1
      · subst hk1
        exact ⟨rfl, rfl⟩
      · exact hinner kp hk1
    | some p0 =>
      have hp0 := hinner ((code, cond), p0) (alookup_mem _ _ _ hm2)
      simp only [] at hp0
      rw [hm2] at hkp
      simp only [] at hkp
      have hg : ¬((if p0.direction = a then { p0 with quantity := p0.quantity + q }
          else { p0 with quantity := p0.quantity - q } : StockPosition).cond ≠ cond) := by
        simp [apply_ite StockPosition.cond, hp0.2]
      rw [if_neg hg, if_neg hg] at hkp
      by_cases hz : ((if p0.direction = a then { p0 with quantity := p0.quantity + q }
          else { p0 with quantity := p0.quantity - q } : StockPosition).quantity = 0)
      · rw [if_pos hz] at hkp
        rcases mem_ainsert _ _ _ _ ((aerase_sublist _ _).subset hkp) with hk1 | hk1
        · subst hk1
          exact ⟨by simpa [apply_ite StockPosition.code] using hp0.1,
            by simpa [apply_ite StockPosition.cond] using hp0.2⟩
        · exact hinner kp hk1
      · rw [if_neg hz] at hkp
        rcases mem_ainsert _ _ _ _ hkp with hk1 | hk1
        · subst hk1
          exact ⟨by simpa [apply_ite StockPosition.code] using hp0.1,
            by simpa [apply_ite StockPosition.cond] using hp0.2⟩
        · exact hinner kp hk1
  · exact h e he1 kp hkp

theorem consistent_updateFutures (st : SyncState) (ak code : String) (a : Action)
    (q pr : Int) (h : StockEntriesConsistent st) :
    StockEntriesConsistent (updateFuturesPosition st ak code a q pr) :=
  consistent_of_same_stock (updateFutures_frame st ak code a q pr).1 h

theorem consistent_updatePosition (st st' : SyncState) (d : DealEvent) (b : Bool)
    (heq : updatePosition st d b = some st') (h : StockEntriesConsistent st) :
    StockEntriesConsistent st' := by
  obtain ⟨c, av, qo, po, ao, oco⟩ := d
  cases c with
  | none => simp only [updatePosition, Option.some.injEq] at heq; exact heq ▸ h
  | some code =>
    cases av with
    | none => simp only [updatePosition, Option.some.injEq] at heq; exact heq ▸ h
    | some action_value =>
      cases ao with
      | none => simp only [updatePosition, Option.some.injEq] at heq; exact heq ▸ h
      | some account =>
        simp only [updatePosition] at heq
        by_cases hempty : code = "" ∨ action_value = ""
        · rw [if_pos hempty] at heq
          exact (Option.some.injEq _ _ ▸ heq) ▸ h
        · rw [if_neg hempty] at heq
          cases hn : normalizeDirection action_value with
          | none => rw [hn] at heq; simp at heq
          | some act =>
            rw [hn] at heq
            simp only [] at heq
            cases b with
            | true =>
              simp only [if_pos, Option.some.injEq] at heq
              exact heq ▸ consistent_updateFutures st _ code act _ _ h
            | false =>
              simp only [Bool.false_eq_true, if_false, Option.some.injEq] at heq
              exact heq ▸ consistent_updateStock st _ code act _ _ _ h

theorem consistent_initStockPnl (st : SyncState) (ak : String) (pnl : ApiPnl)
    (h : StockEntriesConsistent st) :
    StockEntriesConsistent (initStockPnl st ak pnl) := by
  cases pnl with
  | fut p => exact h
  | stk p =>
    have hinner := inner_consistent st ak h
    intro e he kp hkp
    simp only [initStockPnl] at he
    rcases mem_ainsert _ _ _ _ he with he1 | he1
    · subst he1
      rcases mem_ainsert _ _ _ _ hkp with hk1 | hk1
      · subst hk1
        exact ⟨rfl, rfl⟩
      · exact hinner kp hk1
    · exact h e he1 kp hkp

theorem consistent_initFuturesPnl (st : SyncState) (ak : String) (pnl : ApiPnl)
    (h : StockEntriesConsistent st) :
    StockEntriesConsistent (initFuturesPnl st ak pnl) := by
  cases pnl with
  | stk p => exact h
  | fut p => exact consistent_of_same_stock rfl h

theorem consistent_initAccount (st : SyncState) (account : ApiAccount)
    (resp : Option (List ApiPnl)) (h : StockEntriesConsistent st) :
    StockEntriesConsistent (initAccount st account resp) := by
  cases resp with
  | none => exact h
  | some pnls =>
    cases hat : account.account_type with
    | Stock =>
      simp only [initAccount, hat]
      exact foldl_preserve (fun s x hs => consistent_initStockPnl s _ x hs) pnls st h
    | Future =>
      simp only [initAccount, hat]
      exact foldl_preserve (fun s x hs => consistent_initFuturesPnl s _ x hs) pnls st h

theorem consistent_initialize (accounts : List (ApiAccount × Option (List ApiPnl))) :
    StockEntriesConsistent (initializePositions accounts) := by
  unfold initializePositions
  refine foldl_preserve (fun s x hs => consistent_initAccount s x.1 x.2 hs) accounts
    SyncState.empty ?_
  intro e he
  simp [SyncState.empty] at he

theorem reachable_consistent (st : SyncState) (h : Reachable st) :
    StockEntriesConsistent st := by
  induction h with
  | init accounts => exact consistent_initialize accounts
  | step st0 os d st' hr heq ih =>
    cases os with
    | StockDeal => exact consistent_updatePosition st0 st' d false heq ih
    | FuturesDeal => exact consistent_updatePosition st0 st' d true heq ih
    | OtherState =>
      simp only [onOrderDealEvent, Option.some.injEq] at heq
      exact heq ▸ ih

/-! ## Signed-sum bookkeeping for single-key deal sequences -/

theorem signedStep (d a : Action) (v q : Int) :
    signedQuantity d (if d = a then v + q else v - q)
      = signedQuantity d v + signedQuantity a q := by
  cases d <;> cases a <;> simp [signedQuantity] <;> ring

theorem signedQuantity_zero (d : Action) : signedQuantity d 0 = 0 := by
  cases d <;> simp [signedQuantity]

theorem c4_aux (ak code : String) (cond : StockOrderCond) :
    ∀ (deals : List (Action × Int)) (st : SyncState),
      (∀ d ∈ deals, 0 < d.2) →
      NodupKeys (stockInner st ak) →
      (∀ p, alookup (stockInner st ak) (code, cond) = some p →
        p.cond = cond ∧ p.quantity ≠ 0) →
      signedVal (alookup (stockInner
            (deals.foldl (fun s d => updateStockPosition s ak code d.1 d.2 0 cond) st)
            ak) (code, cond))
          = signedVal (alookup (stockInner st ak) (code, cond)) + signedSum deals
        ∧ NodupKeys (stockInner
            (deals.foldl (fun s d => updateStockPosition s ak code d.1 d.2 0 cond) st)
            ak)
        ∧ (∀ p, alookup (stockInner
              (deals.foldl (fun s d => updateStockPosition s ak code d.1 d.2 0 cond) st)
              ak) (code, cond) = some p → p.cond = cond ∧ p.quantity ≠ 0) := by
  intro deals
  induction deals with
  | nil =>
    intro st hpos hnd hinv
    exact ⟨by simp [signedSum], hnd, hinv⟩
  | cons d rest ih =>
    intro st hpos hnd hinv
    obtain ⟨a, q⟩ := d
    have hq0 : 0 < q := hpos (a, q) (List.mem_cons_self _ _)
    have hstep := stockInner_update_self st ak code a q 0 cond hnd
      (fun p hp => (hinv p hp).1)
    have hnd1 := nodupKeys_stockInner_update st ak code a q 0 cond hnd
    have hinv1 : ∀ p, alookup
        (stockInner (updateStockPosition st ak code a q 0 cond) ak) (code, cond)
          = some p → p.cond = cond ∧ p.quantity ≠ 0 := by
      intro p' hp'
      rw [hstep] at hp'
      cases hl : alookup (stockInner st ak) (code, cond) with
      | none =>
        rw [hl] at hp'
        simp only [Option.some.injEq] at hp'
        subst hp'
        exact ⟨rfl, hq0.ne'⟩
      | some p =>
        rw [hl] at hp'
        simp only [] at hp'
        by_cases hz : (if p.direction = a then p.quantity + q else p.quantity - q) = 0
        · rw [if_pos hz] at hp'
          exact absurd hp' (by simp)
        · rw [if_neg hz] at hp'
          simp only [Option.some.injEq] at hp'
          subst hp'
          exact ⟨(hinv p hl).1, hz⟩
    have hval1 : signedVal (alookup
        (stockInner (updateStockPosition st ak code a q 0 cond) ak) (code, cond))
          = signedVal (alookup (stockInner st ak) (code, cond)) + signedQuantity a q := by
      rw [hstep]
      cases hl : alookup (stockInner st ak) (code, cond) with
      | none => simp [signedVal, signedQuantity]
      | some p =>
        have hkey : ∀ q1 : Int,
            signedVal (if q1 = 0 then none
              else some ({ p with quantity := q1 } : StockPosition))
              = signedQuantity p.direction q1 := by
          intro q1
          by_cases hz : q1 = 0
          · rw [if_pos hz]
            subst hz
            rw [signedQuantity_zero]
            rfl
          · rw [if_neg hz]
            simp [signedVal]
        simp only []
        rw [hkey (if p.direction = a then p.quantity + q else p.quantity - q)]
        simp only [signedVal]
        exact signedStep p.direction a p.quantity q
    have hrest := ih (updateStockPosition st ak code a q 0 cond)
      (fun d hd => hpos d (List.mem_cons_of_mem _ hd)) hnd1 hinv1
    refine ⟨?_, hrest.2.1, hrest.2.2⟩
    calc signedVal (alookup (stockInner
          (rest.foldl (fun s d => updateStockPosition s ak code d.1 d.2 0 cond)
            (updateStockPosition st ak code a q 0 cond)) ak) (code, cond))
        = signedVal (alookup
            (stockInner (updateStockPosition st ak code a q 0 cond) ak) (code, cond))
            + signedSum rest := hrest.1
      _ = signedVal (alookup (stockInner st ak) (code, cond))
            + signedSum ((a, q) :: rest) := by
          rw [hval1]
          simp only [signedSum]
          ring

/-! ## Claim theorems -/

/-- Claim C1: with the smart-sync threshold T positive and a recorded most
recent deal at time t, a read issued at a time now with now minus t below T
performs no authoritative list_positions call, and a read issued at or after T
seconds performs exactly one authoritative call. -/
theorem c1_smart_sync_threshold (T t now : Int) (hT : 0 < T) :
    (now - t < T → authoritativeCallCount T (some t) now = 0)
    ∧ (T ≤ now - t → authoritativeCallCount T (some t) now = 1) := by
  have hT' : ¬ T ≤ 0 := not_le.mpr hT
  constructor
  · intro h
    simp [authoritativeCallCount, inUnstablePeriod, hT', h]
  · intro h
    simp [authoritativeCallCount, inUnstablePeriod, hT', not_lt.mpr h]

/-- Witness for c1_smart_sync_threshold: threshold 5, last deal at time 0, a
read at time 3 makes no authoritative call and a read at time 7 makes one. -/
theorem c1_smart_sync_threshold_witness :
    authoritativeCallCount 5 (some 0) 3 = 0 ∧ authoritativeCallCount 5 (some 0) 7 = 1 :=
  ⟨(c1_smart_sync_threshold 5 0 3 (by decide)).1 (by decide),
   (c1_smart_sync_threshold 5 0 7 (by decide)).2 (by decide)⟩

/-- Claim C2 fails on the code: a deal event missing only the quantity field is
not rejected by the missing-field check of _update_position, which tests only
code, action and account; the quantity defaults to 0 and, for a previously
absent key, a quantity-0 stock position is inserted, so the stock map is
mutated rather than left unchanged. -/
theorem c2_missing_quantity_mutates :
    updatePosition SyncState.empty
        ⟨some "2330", some "Buy", none, none, some ⟨"9100", "1234567"⟩, none⟩ false
      = some ⟨[("91001234567", [(("2330", StockOrderCond.Cash),
          ⟨"2330", Action.Buy, 0, 0, StockOrderCond.Cash⟩)])], []⟩
    ∧ ([("91001234567", [(("2330", StockOrderCond.Cash),
          (⟨"2330", Action.Buy, 0, 0, StockOrderCond.Cash⟩ : StockPosition))])]
          : List (String × StockAcctMap)) ≠ SyncState.empty.stock := by
  constructor
  · decide
  · decide

/-- Claim C3 fails on the code: _initialize_positions applies no quantity
filter, so a quantity-0 stock record returned by the authoritative source is
inserted into the ledger as a stored entry with quantity 0. -/
theorem c3_init_inserts_zero_quantity :
    alookup (stockInner (initializePositions
        [(⟨"9100", "1234567", AccountType.Stock⟩,
          some [ApiPnl.stk ⟨"2330", Action.Buy, 0, 0, StockOrderCond.Cash⟩])])
        "91001234567") ("2330", StockOrderCond.Cash)
      = some ⟨"2330", Action.Buy, 0, 0, StockOrderCond.Cash⟩ := by
  decide

/-- Claim C4: for any sequence of well-formed stock deals sharing one
(code, order-condition) key applied to the initially empty ledger, if the
signed sum of the quantities (buys positive, sells negative) is 0 then the key
is absent from the account's stock map afterward. -/
theorem c4_zero_sum_key_absent (ak code : String) (cond : StockOrderCond)
    (deals : List (Action × Int)) (hpos : ∀ d ∈ deals, 0 < d.2)
    (hsum : signedSum deals = 0) :
    alookup (stockInner (applyStockDeals ak code cond deals) ak) (code, cond)
      = none := by
  have hempty1 : NodupKeys (stockInner SyncState.empty ak) := by
    simp [stockInner, SyncState.empty, alookup, NodupKeys]
  have hempty2 : ∀ p, alookup (stockInner SyncState.empty ak) (code, cond) = some p →
      p.cond = cond ∧ p.quantity ≠ 0 := by
    intro p hp
    simp [stockInner, SyncState.empty, alookup] at hp
  have h := c4_aux ak code cond deals SyncState.empty hpos hempty1 hempty2
  unfold applyStockDeals
  cases hl : alookup (stockInner
      (deals.foldl (fun s d => updateStockPosition s ak code d.1 d.2 0 cond)
        SyncState.empty) ak) (code, cond) with
  | none => rfl
  | some p =>
    exfalso
    have hinv := h.2.2 p hl
    have hval := h.1
    rw [hl, hsum] at hval
    have hz : signedVal (alookup (stockInner SyncState.empty ak) (code, cond)) = 0 := by
      simp [stockInner, SyncState.empty, alookup, signedVal]
    rw [hz] at hval
    simp only [signedVal] at hval
    obtain ⟨pc, pd, pq, py, pcnd⟩ := p
    cases pd <;> simp [signedQuantity] at hval <;> exact hinv.2 hval

/-- Witness for c4_zero_sum_key_absent: buy 5, sell 8, buy 3 sums to zero and
leaves the key absent even though the intermediate quantity passes through a
negative value. -/
theorem c4_zero_sum_key_absent_witness :
    alookup (stockInner (applyStockDeals "91001234567" "2330" StockOrderCond.Cash
        [(Action.Buy, 5), (Action.Sell, 8), (Action.Buy, 3)]) "91001234567")
      ("2330", StockOrderCond.Cash) = none :=
  c4_zero_sum_key_absent "91001234567" "2330" StockOrderCond.Cash
    [(Action.Buy, 5), (Action.Sell, 8), (Action.Buy, 3)] (by decide) (by decide)

/-- Claim C5 fails on the code: an opposite-direction deal larger than the
stored quantity is not clamped or deleted; after buy 5 then sell 8 on the same
key the ledger retains a Buy position with quantity -3, a negative remaining
quantity. -/
theorem c5_negative_quantity_counterexample :
    alookup (stockInner (applyStockDeals "91001234567" "2330" StockOrderCond.Cash
        [(Action.Buy, 5), (Action.Sell, 8)]) "91001234567")
      ("2330", StockOrderCond.Cash)
      = some ⟨"2330", Action.Buy, -3, 0, StockOrderCond.Cash⟩
    ∧ (-3 : Int) < 0 := by
  constructor <;> decide

/-- Claim C5 as amended: on a deal whose action equals the stored direction the
quantity increases by the deal quantity; on an opposite deal the stored
direction is unchanged and the quantity decreases by the deal quantity, the
position being deleted exactly when the result is 0 — the result may be
negative when the deal overshoots, but when the opposite deal quantity does not
exceed the stored quantity any remaining position keeps its direction and has
nonnegative quantity.  Both the stock and the futures update behave this way. -/
theorem c5_direction_and_shrink :
    (∀ (st : SyncState) (ak code : String) (a : Action) (q pr : Int)
      (cond : StockOrderCond) (p0 : StockPosition),
      NodupKeys (stockInner st ak) →
      alookup (stockInner st ak) (code, cond) = some p0 →
      p0.cond = cond →
      (p0.direction = a →
        alookup (stockInner (updateStockPosition st ak code a q pr cond) ak)
            (code, cond)
          = if p0.quantity + q = 0 then none
            else some { p0 with quantity := p0.quantity + q })
      ∧ (p0.direction ≠ a →
        alookup (stockInner (updateStockPosition st ak code a q pr cond) ak)
            (code, cond)
          = if p0.quantity - q = 0 then none
            else some { p0 with quantity := p0.quantity - q })
      ∧ (p0.direction ≠ a → q ≤ p0.quantity →
        ∀ p', alookup (stockInner (updateStockPosition st ak code a q pr cond) ak)
            (code, cond) = some p' →
          p'.direction = p0.direction ∧ 0 ≤ p'.quantity))
    ∧ (∀ (st : SyncState) (ak code : String) (a : Action) (q pr : Int)
      (p0 : FuturesPosition),
      NodupKeys (futuresInner st ak) →
      alookup (futuresInner st ak) code = some p0 →
      (p0.direction = a →
        alookup (futuresInner (updateFuturesPosition st ak code a q pr) ak) code
          = if p0.quantity + q = 0 then none
            else some { p0 with quantity := p0.quantity + q })
      ∧ (p0.direction ≠ a →
        alookup (futuresInner (updateFuturesPosition st ak code a q pr) ak) code
          = if p0.quantity - q = 0 then none
            else some { p0 with quantity := p0.quantity - q })
      ∧ (p0.direction ≠ a → q ≤ p0.quantity →
        ∀ p', alookup (futuresInner (updateFuturesPosition st ak code a q pr) ak) code
            = some p' → p'.direction = p0.direction ∧ 0 ≤ p'.quantity)) := by
  constructor
  · intro st ak code a q pr cond p0 hnd hl hcnd
    have hstep := stockInner_update_self st ak code a q pr cond hnd
      (fun p hp => by rw [hl] at hp; cases hp; exact hcnd)
    rw [hl] at hstep
    simp only [] at hstep
    refine ⟨fun hd => ?_, fun hd => ?_, fun hd hle p' hp' => ?_⟩
    · rw [hstep]
      simp [hd]
    · rw [hstep]
      simp [hd]
    · rw [hstep] at hp'
      rw [if_neg hd] at hp'
      by_cases hz : p0.quantity - q = 0
      · rw [if_pos hz] at hp'
        exact absurd hp' (by simp)
      · rw [if_neg hz] at hp'
        simp only [Option.some.injEq] at hp'
        subst hp'
        refine ⟨rfl, ?_⟩
        show (0 : Int) ≤ p0.quantity - q
        omega
  · intro st ak code a q pr p0 hnd hl
    have hstep := futuresInner_update_self st ak code a q pr hnd
    rw [hl] at hstep
    simp only [] at hstep
    refine ⟨fun hd => ?_, fun hd => ?_, fun hd hle p' hp' => ?_⟩
    · rw [hstep]
      simp [hd]
    · rw [hstep]
      simp [hd]
    · rw [hstep] at hp'
      rw [if_neg hd] at hp'
      by_cases hz : p0.quantity - q = 0
      · rw [if_pos hz] at hp'
        exact absurd hp' (by simp)
      · rw [if_neg hz] at hp'
        simp only [Option.some.injEq] at hp'
        subst hp'
        refine ⟨rfl, ?_⟩
        show (0 : Int) ≤ p0.quantity - q
        omega

/-- Witness for c5_direction_and_shrink: a stock position Buy 10 reduced by a
sell of 3 keeps direction Buy with quantity 7, and a futures position Buy 2
grows to 3 on another buy of 1. -/
theorem c5_direction_and_shrink_witness :
    alookup (stockInner (updateStockPosition
        ⟨[("9100AAA", [(("2330", StockOrderCond.Cash),
            ⟨"2330", Action.Buy, 10, 0, StockOrderCond.Cash⟩)])], []⟩
        "9100AAA" "2330" Action.Sell 3 0 StockOrderCond.Cash) "9100AAA")
      ("2330", StockOrderCond.Cash)
      = some ⟨"2330", Action.Buy, 7, 0, StockOrderCond.Cash⟩
    ∧ alookup (futuresInner (updateFuturesPosition
        ⟨[], [("9100AAA", [("TXFJ4", ⟨"TXFJ4", Action.Buy, 2⟩)])]⟩
        "9100AAA" "TXFJ4" Action.Buy 1 0) "9100AAA") "TXFJ4"
      = some ⟨"TXFJ4", Action.Buy, 3⟩ := by
  constructor
  · have h := (c5_direction_and_shrink.1
      ⟨[("9100AAA", [(("2330", StockOrderCond.Cash),
          ⟨"2330", Action.Buy, 10, 0, StockOrderCond.Cash⟩)])], []⟩
      "9100AAA" "2330" Action.Sell 3 0 StockOrderCond.Cash
      ⟨"2330", Action.Buy, 10, 0, StockOrderCond.Cash⟩
      (by decide) (by decide) rfl).2.1 (by decide)
    rw [h]
    decide
  · have h := (c5_direction_and_shrink.2
      ⟨[], [("9100AAA", [("TXFJ4", ⟨"TXFJ4", Action.Buy, 2⟩)])]⟩
      "9100AAA" "TXFJ4" Action.Buy 1 0 ⟨"TXFJ4", Action.Buy, 2⟩
      (by decide) (by decide)).1 rfl
    rw [h]
    decide

/-- Claim C6 fails on the code: the default read tests key presence rather than
holding at least one position.  In a reachable state where the stock account
fully closed its only position (its sub-dict exists but is empty) while the
futures account holds one position, list_positions with no account returns the
empty list instead of the futures positions required by the resolution order. -/
theorem c6_default_read_counterexample :
    (let st := updateFuturesPosition (updateStockPosition (updateStockPosition
        SyncState.empty "9100AAA" "2330" Action.Buy 1 0 StockOrderCond.Cash)
        "9100AAA" "2330" Action.Sell 1 0 StockOrderCond.Cash)
        "9100BBB" "TXFJ4" Action.Buy 1 0
    let api : ApiDefaults := ⟨some ⟨"9100", "AAA", AccountType.Stock⟩,
        some ⟨"9100", "BBB", AccountType.Future⟩⟩
    listPositionsDefault api st = PositionsResult.stocks []
    ∧ listDefaultResolutionSpec api st
        = PositionsResult.futs [⟨"TXFJ4", Action.Buy, 1⟩]
    ∧ PositionsResult.stocks ([] : List StockPosition)
        ≠ PositionsResult.futs [⟨"TXFJ4", Action.Buy, 1⟩]) := by
  decide

/-- Claim C6 as amended: the default read prefers the stock account whenever an
entry for its key exists in the stock map, even an empty one, and falls back to
the futures account only when no such entry exists; under the assumption that
the default accounts' sub-dicts are nonempty whenever present, this coincides
with the resolution order stated by the spec. -/
theorem c6_default_read_amended (api : ApiDefaults) (st : SyncState)
    (hs : ∀ sa m, api.stock_account = some sa →
      alookup st.stock (getAccountKeyAcct sa) = some m → m ≠ [])
    (hf : ∀ fa m, api.futopt_account = some fa →
      alookup st.futures (getAccountKeyAcct fa) = some m → m ≠ []) :
    listPositionsDefault api st = listDefaultResolutionSpec api st := by
  cases hsa : api.stock_account with
  | some sa =>
    cases hm : alookup st.stock (getAccountKeyAcct sa) with
    | some m =>
      have hne := hs sa m hsa hm
      simp [listPositionsDefault, listDefaultResolutionSpec, hsa, hm, hne]
    | none =>
      cases hfa : api.futopt_account with
      | none => simp [listPositionsDefault, listDefaultResolutionSpec, hsa, hm, hfa]
      | some fa =>
        cases hmf : alookup st.futures (getAccountKeyAcct fa) with
        | none =>
          simp [listPositionsDefault, listDefaultResolutionSpec, hsa, hm, hfa, hmf]
        | some mf =>
          have hnef := hf fa mf hfa hmf
          simp [listPositionsDefault, listDefaultResolutionSpec, hsa, hm, hfa, hmf,
            hnef]
  | none =>
    cases hfa : api.futopt_account with
    | none => simp [listPositionsDefault, listDefaultResolutionSpec, hsa, hfa]
    | some fa =>
      cases hmf : alookup st.futures (getAccountKeyAcct fa) with
      | none => simp [listPositionsDefault, listDefaultResolutionSpec, hsa, hfa, hmf]
      | some mf =>
        have hnef := hf fa mf hfa hmf
        simp [listPositionsDefault, listDefaultResolutionSpec, hsa, hfa, hmf, hnef]

/-- Witness for c6_default_read_amended: with one nonempty stock entry for the
default stock account and no futures account, the code read and the resolution
order of the spec agree. -/
theorem c6_default_read_amended_witness :
    listPositionsDefault
        ⟨some ⟨"9100", "AAA", AccountType.Stock⟩, none⟩
        ⟨[("9100AAA", [(("2330", StockOrderCond.Cash),
            ⟨"2330", Action.Buy, 10, 0, StockOrderCond.Cash⟩)])], []⟩
      = listDefaultResolutionSpec
        ⟨some ⟨"9100", "AAA", AccountType.Stock⟩, none⟩
        ⟨[("9100AAA", [(("2330", StockOrderCond.Cash),
            ⟨"2330", Action.Buy, 10, 0, StockOrderCond.Cash⟩)])], []⟩ := by
  apply c6_default_read_amended
  · intro sa m hsa hm
    cases hsa
    have h2 : some ([(("2330", StockOrderCond.Cash),
        (⟨"2330", Action.Buy, 10, 0, StockOrderCond.Cash⟩ : StockPosition))]
          : StockAcctMap) = some m := by
      rw [← hm]
      decide
    injection h2 with h3
    subst h3
    decide
  · intro fa m hfa hm
    simp at hfa

/-! ## Reconciliation lemmas -/

theorem alookup_filter_of_pass {α β : Type} [DecidableEq α] (m : List (α × β))
    (a : α) (b : β) (f : α × β → Bool) (h : alookup m a = some b)
    (hf : f (a, b) = true) : alookup (m.filter f) a = some b := by
  induction m with
  | nil => simp [alookup] at h
  | cons kv rest ih =>
    obtain ⟨k, v⟩ := kv
    by_cases hk : k = a
    · subst hk
      simp only [alookup, if_pos] at h
      injection h with hvb
      subst hvb
      rw [List.filter_cons, hf]
      simp [alookup]
    · simp only [alookup, if_neg hk] at h
      rw [List.filter_cons]
      by_cases hkeep : f (k, v) = true
      · rw [hkeep]
        simp only [if_true]
        simp only [alookup, if_neg hk]
        exact ih h
      · have hkeep' : f (k, v) = false := by
          revert hkeep
          cases f (k, v) <;> simp
        rw [hkeep']
        simp only [Bool.false_eq_true, if_false]
        exact ih h

theorem reconcile_fold_keep (code : String) (cond : StockOrderCond) (qa : Int) :
    ∀ (auth : List ApiStockPnl) (acc : StockAcctMap) (r : StockPosition),
      alookup acc (code, cond) = some r → r.quantity = qa →
      (∀ p ∈ auth, p.code = code → p.cond = cond → p.quantity = qa) →
      ∃ r', alookup (auth.foldl
          (fun acc p =>
            let key : StockKey := (p.code, p.cond)
            match alookup acc key with
            | some q =>
              if q.quantity ≠ p.quantity then
                ainsert acc key
                  { q with quantity := p.quantity, yd_quantity := p.yd_quantity }
              else acc
            | none =>
              ainsert acc key
                { code := p.code, direction := p.direction, quantity := p.quantity,
                  yd_quantity := p.yd_quantity, cond := p.cond }) acc) (code, cond)
        = some r' ∧ r'.quantity = qa := by
  intro auth
  induction auth with
  | nil => exact fun acc r hl hq _ => ⟨r, hl, hq⟩
  | cons p rest ih =>
    intro acc r hl hq hall
    have hall' : ∀ p' ∈ rest, p'.code = code → p'.cond = cond → p'.quantity = qa :=
      fun p' hp' => hall p' (List.mem_cons_of_mem _ hp')
    simp only [List.foldl_cons]
    by_cases hpk : ((p.code, p.cond) : StockKey) = (code, cond)
    · have hpk' := hpk
      rw [Prod.mk.injEq] at hpk'
      have hpq : p.quantity = qa := hall p (List.mem_cons_self _ _) hpk'.1 hpk'.2
      rw [hpk, hl]
      simp only []
      by_cases hrq : r.quantity ≠ p.quantity
      · rw [if_pos hrq]
        exact ih _ _ (alookup_ainsert_self _ _ _) hpq hall'
      · rw [if_neg hrq]
        exact ih _ _ hl hq hall'
    · cases hsc : alookup acc (p.code, p.cond) with
      | some qq =>
        simp only []
        by_cases hqq : qq.quantity ≠ p.quantity
        · rw [if_pos hqq]
          exact ih _ _ (by rw [alookup_ainsert_ne hpk]; exact hl) hq hall'
        · rw [if_neg hqq]
          exact ih _ _ hl hq hall'
      | none =>
        simp only []
        exact ih _ _ (by rw [alookup_ainsert_ne hpk]; exact hl) hq hall'

theorem reconcile_fold_overwrite (code : String) (cond : StockOrderCond) (qa : Int) :
    ∀ (auth : List ApiStockPnl) (acc : StockAcctMap) (r0 : StockPosition),
      alookup acc (code, cond) = some r0 →
      (∃ p ∈ auth, p.code = code ∧ p.cond = cond) →
      (∀ p ∈ auth, p.code = code → p.cond = cond → p.quantity = qa) →
      ∃ r', alookup (auth.foldl
          (fun acc p =>
            let key : StockKey := (p.code, p.cond)
            match alookup acc key with
            | some q =>
              if q.quantity ≠ p.quantity then
                ainsert acc key
                  { q with quantity := p.quantity, yd_quantity := p.yd_quantity }
              else acc
            | none =>
              ainsert acc key
                { code := p.code, direction := p.direction, quantity := p.quantity,
                  yd_quantity := p.yd_quantity, cond := p.cond }) acc) (code, cond)
        = some r' ∧ r'.quantity = qa := by
  intro auth
  induction auth with
  | nil =>
    intro acc r0 hl hmem hall
    obtain ⟨p, hp, _⟩ := hmem
    exact absurd hp (by simp)
  | cons p rest ih =>
    intro acc r0 hl hmem hall
    have hall' : ∀ p' ∈ rest, p'.code = code → p'.cond = cond → p'.quantity = qa :=
      fun p' hp' => hall p' (List.mem_cons_of_mem _ hp')
    simp only [List.foldl_cons]
    by_cases hpk : ((p.code, p.cond) : StockKey) = (code, cond)
    · have hpk' := hpk
      rw [Prod.mk.injEq] at hpk'
      have hpq : p.quantity = qa := hall p (List.mem_cons_self _ _) hpk'.1 hpk'.2
      rw [hpk, hl]
      simp only []
      by_cases hrq : r0.quantity ≠ p.quantity
      · rw [if_pos hrq]
        exact reconcile_fold_keep code cond qa rest _ _
          (alookup_ainsert_self _ _ _) hpq hall'
      · rw [if_neg hrq]
        push_neg at hrq
        exact reconcile_fold_keep code cond qa rest _ _ hl (hrq.trans hpq) hall'
    · obtain ⟨p', hp', hpc', hpcnd'⟩ := hmem
      rcases List.mem_cons.mp hp' with hpp | hp'rest
      · exact absurd (by rw [← hpp, hpc', hpcnd'] :
          ((p.code, p.cond) : StockKey) = (code, cond)) hpk
      · have hmem' : ∃ pp ∈ rest, pp.code = code ∧ pp.cond = cond :=
          ⟨p', hp'rest, hpc', hpcnd'⟩
        cases hsc : alookup acc (p.code, p.cond) with
        | some qq =>
          simp only []
          by_cases hqq : qq.quantity ≠ p.quantity
          · rw [if_pos hqq]
            exact ih _ _ (by rw [alookup_ainsert_ne hpk]; exact hl) hmem' hall'
          · rw [if_neg hqq]
            exact ih _ _ hl hmem' hall'
        | none =>
          simp only []
          exact ih _ _ (by rw [alookup_ainsert_ne hpk]; exact hl) hmem' hall'

/-- Claim C7: when the local ledger holds an entry with quantity 10 for a key
for which every authoritative record reports quantity 15 (and at least one such
record exists), the reconciliation leaves the entry for that key with quantity
15: the authoritative side wins on mismatched keys. -/
theorem c7_reconcile_authoritative_wins (auth : List ApiStockPnl) (m : StockAcctMap)
    (code : String) (cond : StockOrderCond) (p0 : StockPosition)
    (hl : alookup m (code, cond) = some p0) (hq10 : p0.quantity = 10)
    (hmem : ∃ p ∈ auth, p.code = code ∧ p.cond = cond)
    (hall : ∀ p ∈ auth, p.code = code → p.cond = cond → p.quantity = 15) :
    ∃ r, alookup (reconcileStock auth m) (code, cond) = some r ∧ r.quantity = 15 := by
  obtain ⟨r', hr', hq'⟩ := reconcile_fold_overwrite code cond 15 auth m p0 hl hmem hall
  refine ⟨r', ?_, hq'⟩
  unfold reconcileStock
  simp only []
  refine alookup_filter_of_pass _ _ _ _ hr' ?_
  obtain ⟨p, hpmem, hpc, hpcnd⟩ := hmem
  refine List.any_eq_true.mpr ⟨p, hpmem, ?_⟩
  simp [hpc, hpcnd]

/-- Witness for c7_reconcile_authoritative_wins: a local Cash entry for 2330
with quantity 10 against an authoritative record with quantity 15 reconciles
to quantity 15. -/
theorem c7_reconcile_authoritative_wins_witness :
    ∃ r, alookup (reconcileStock
        [⟨"2330", Action.Buy, 15, 12, StockOrderCond.Cash⟩]
        [(("2330", StockOrderCond.Cash),
          ⟨"2330", Action.Buy, 10, 10, StockOrderCond.Cash⟩)])
        ("2330", StockOrderCond.Cash) = some r ∧ r.quantity = 15 :=
  c7_reconcile_authoritative_wins
    [⟨"2330", Action.Buy, 15, 12, StockOrderCond.Cash⟩]
    [(("2330", StockOrderCond.Cash),
      ⟨"2330", Action.Buy, 10, 10, StockOrderCond.Cash⟩)]
    "2330" StockOrderCond.Cash ⟨"2330", Action.Buy, 10, 10, StockOrderCond.Cash⟩
    (by decide) (by decide) (by decide) (by decide)

/-- Claim C8: a single deal event mutates at most the one map entry addressed
by its account key and position key: a stock deal leaves the futures map, every
other account's stock entry and every other (code, order-condition) key of the
same account unchanged, and a futures deal symmetrically leaves the stock map,
other accounts and other codes unchanged. -/
theorem c8_frame (st st' : SyncState) (deal : DealEvent) (code av : String)
    (acct : AccountDict) (isFut : Bool)
    (hc : deal.code = some code) (ha : deal.action = some av)
    (hacct : deal.account = some acct)
    (hst : updatePosition st deal isFut = some st') :
    (isFut = false →
      st'.futures = st.futures
      ∧ (∀ ak, ak ≠ getAccountKeyDict acct →
          alookup st'.stock ak = alookup st.stock ak)
      ∧ (∀ k : StockKey, k ≠ (code, normalizeCond (deal.order_cond.getD "Cash")) →
          alookup (stockInner st' (getAccountKeyDict acct)) k
            = alookup (stockInner st (getAccountKeyDict acct)) k))
    ∧ (isFut = true →
      st'.stock = st.stock
      ∧ (∀ ak, ak ≠ getAccountKeyDict acct →
          alookup st'.futures ak = alookup st.futures ak)
      ∧ (∀ c, c ≠ code →
          alookup (futuresInner st' (getAccountKeyDict acct)) c
            = alookup (futuresInner st (getAccountKeyDict acct)) c)) := by
  obtain ⟨co, ao, qo, po, aco, oco⟩ := deal
  simp only [] at hc ha hacct
  subst hc
  subst ha
  subst hacct
  simp only [updatePosition] at hst
  by_cases hemp : code = "" ∨ av = ""
  · rw [if_pos hemp] at hst
    injection hst with h'
    subst h'
    exact ⟨fun _ => ⟨rfl, fun _ _ => rfl, fun _ _ => rfl⟩,
           fun _ => ⟨rfl, fun _ _ => rfl, fun _ _ => rfl⟩⟩
  · rw [if_neg hemp] at hst
    cases hn : normalizeDirection av with
    | none =>
      rw [hn] at hst
      exact absurd hst (by simp)
    | some act =>
      rw [hn] at hst
      simp only [] at hst
      cases isFut with
      | false =>
        simp only [Bool.false_eq_true, if_false, Option.some.injEq] at hst
        subst hst
        refine ⟨fun _ => ?_, fun hcontra => absurd hcontra (by decide)⟩
        have hfr := updateStock_frame st (getAccountKeyDict acct) code act
          (qo.getD 0) (po.getD 0) (normalizeCond (oco.getD "Cash"))
        exact ⟨hfr.1, fun ak hak => hfr.2.1 ak hak, fun k hk => hfr.2.2 k hk⟩
      | true =>
        simp only [if_true, Option.some.injEq] at hst
        subst hst
        refine ⟨fun hcontra => absurd hcontra (by decide), fun _ => ?_⟩
        have hfr := updateFutures_frame st (getAccountKeyDict acct) code act
          (qo.getD 0) (po.getD 0)
        exact ⟨hfr.1, fun ak hak => hfr.2.1 ak hak, fun c hc2 => hfr.2.2 c hc2⟩

/-- Witness for c8_frame: a Cash buy of 2330 on account 9100AAA leaves the
futures map, account 9100BBB and the MarginTrading entry of 2330 on 9100AAA
untouched. -/
theorem c8_frame_witness :
    updatePosition
        ⟨[("9100AAA", [(("2330", StockOrderCond.MarginTrading),
              ⟨"2330", Action.Buy, 4, 0, StockOrderCond.MarginTrading⟩)]),
          ("9100BBB", [(("2330", StockOrderCond.Cash),
              ⟨"2330", Action.Buy, 9, 0, StockOrderCond.Cash⟩)])],
         [("9100FFF", [("TXFJ4", ⟨"TXFJ4", Action.Buy, 2⟩)])]⟩
        ⟨some "2330", some "Buy", some 5, some 500, some ⟨"9100", "AAA"⟩, some "Cash"⟩
        false
      = some ⟨[("9100AAA", [(("2330", StockOrderCond.MarginTrading),
              ⟨"2330", Action.Buy, 4, 0, StockOrderCond.MarginTrading⟩),
            (("2330", StockOrderCond.Cash),
              ⟨"2330", Action.Buy, 5, 0, StockOrderCond.Cash⟩)]),
          ("9100BBB", [(("2330", StockOrderCond.Cash),
              ⟨"2330", Action.Buy, 9, 0, StockOrderCond.Cash⟩)])],
         [("9100FFF", [("TXFJ4", ⟨"TXFJ4", Action.Buy, 2⟩)])]⟩
    ∧ (⟨[("9100AAA", [(("2330", StockOrderCond.MarginTrading),
              ⟨"2330", Action.Buy, 4, 0, StockOrderCond.MarginTrading⟩),
            (("2330", StockOrderCond.Cash),
              ⟨"2330", Action.Buy, 5, 0, StockOrderCond.Cash⟩)]),
          ("9100BBB", [(("2330", StockOrderCond.Cash),
              ⟨"2330", Action.Buy, 9, 0, StockOrderCond.Cash⟩)])],
         [("9100FFF", [("TXFJ4", ⟨"TXFJ4", Action.Buy, 2⟩)])]⟩ : SyncState).futures
      = (⟨[("9100AAA", [(("2330", StockOrderCond.MarginTrading),
              ⟨"2330", Action.Buy, 4, 0, StockOrderCond.MarginTrading⟩)]),
          ("9100BBB", [(("2330", StockOrderCond.Cash),
              ⟨"2330", Action.Buy, 9, 0, StockOrderCond.Cash⟩)])],
         [("9100FFF", [("TXFJ4", ⟨"TXFJ4", Action.Buy, 2⟩)])]⟩ : SyncState).futures
    ∧ alookup (⟨[("9100AAA", [(("2330", StockOrderCond.MarginTrading),
              ⟨"2330", Action.Buy, 4, 0, StockOrderCond.MarginTrading⟩),
            (("2330", StockOrderCond.Cash),
              ⟨"2330", Action.Buy, 5, 0, StockOrderCond.Cash⟩)]),
          ("9100BBB", [(("2330", StockOrderCond.Cash),
              ⟨"2330", Action.Buy, 9, 0, StockOrderCond.Cash⟩)])],
         [("9100FFF", [("TXFJ4", ⟨"TXFJ4", Action.Buy, 2⟩)])]⟩ : SyncState).stock
          "9100BBB"
      = alookup (⟨[("9100AAA", [(("2330", StockOrderCond.MarginTrading),
              ⟨"2330", Action.Buy, 4, 0, StockOrderCond.MarginTrading⟩)]),
          ("9100BBB", [(("2330", StockOrderCond.Cash),
              ⟨"2330", Action.Buy, 9, 0, StockOrderCond.Cash⟩)])],
         [("9100FFF", [("TXFJ4", ⟨"TXFJ4", Action.Buy, 2⟩)])]⟩ : SyncState).stock
          "9100BBB" := by
  refine ⟨by decide, ?_, ?_⟩
  · exact ((c8_frame _ _
      ⟨some "2330", some "Buy", some 5, some 500, some ⟨"9100", "AAA"⟩, some "Cash"⟩
      "2330" "Buy" ⟨"9100", "AAA"⟩ false rfl rfl rfl (by decide)).1 rfl).1
  · exact ((c8_frame _ _
      ⟨some "2330", some "Buy", some 5, some 500, some ⟨"9100", "AAA"⟩, some "Cash"⟩
      "2330" "Buy" ⟨"9100", "AAA"⟩ false rfl rfl rfl (by decide)).1 rfl).2.1
      "9100BBB" (by decide)

/-- The price argument of _update_stock_position is never read. -/
theorem updateStockPosition_price_zero (st : SyncState) (ak code : String)
    (a : Action) (q pr : Int) (cond : StockOrderCond) :
    updateStockPosition st ak code a q pr cond
      = updateStockPosition st ak code a q 0 cond := rfl

/-- The price argument of _update_futures_position is never read. -/
theorem updateFuturesPosition_price_zero (st : SyncState) (ak code : String)
    (a : Action) (q pr : Int) :
    updateFuturesPosition st ak code a q pr
      = updateFuturesPosition st ak code a q 0 := rfl

theorem updatePosition_price_irrel (st : SyncState) (c a : Option String)
    (qo : Option Int) (po po' : Option Int) (ao : Option AccountDict)
    (oco : Option String) (b : Bool) :
    updatePosition st ⟨c, a, qo, po, ao, oco⟩ b
      = updatePosition st ⟨c, a, qo, po', ao, oco⟩ b := by
  cases c <;> cases a <;> cases ao <;>
    simp only [updatePosition, updateStockPosition_price_zero,
      updateFuturesPosition_price_zero]

/-- Claim C9: two deal events identical except for their price field produce
identical position maps when applied in any state: the price never influences
quantity, direction, key or deletion. -/
theorem c9_price_has_no_effect (st : SyncState) (os : OrderState)
    (d1 d2 : DealEvent) (hc : d1.code = d2.code) (ha : d1.action = d2.action)
    (hq : d1.quantity = d2.quantity) (hacct : d1.account = d2.account)
    (hoc : d1.order_cond = d2.order_cond) :
    onOrderDealEvent st os d1 = onOrderDealEvent st os d2 := by
  obtain ⟨c1, a1, q1, p1, ac1, oc1⟩ := d1
  obtain ⟨c2, a2, q2, p2, ac2, oc2⟩ := d2
  simp only [] at hc ha hq hacct hoc
  subst hc
  subst ha
  subst hq
  subst hacct
  subst hoc
  cases os with
  | StockDeal => exact updatePosition_price_irrel st c1 a1 q1 p1 p2 ac1 oc1 false
  | FuturesDeal => exact updatePosition_price_irrel st c1 a1 q1 p1 p2 ac1 oc1 true
  | OtherState => rfl

/-- Witness for c9_price_has_no_effect: the same stock deal at price 500 and at
price 777 yields the same state. -/
theorem c9_price_has_no_effect_witness :
    onOrderDealEvent SyncState.empty OrderState.StockDeal
        ⟨some "2330", some "Buy", some 5, some 500, some ⟨"9100", "AAA"⟩, some "Cash"⟩
      = onOrderDealEvent SyncState.empty OrderState.StockDeal
        ⟨some "2330", some "Buy", some 5, some 777, some ⟨"9100", "AAA"⟩, some "Cash"⟩ :=
  c9_price_has_no_effect SyncState.empty OrderState.StockDeal _ _ rfl rfl rfl rfl rfl

/-- Claim C10: in every reachable state each stock entry stored under
(code, cond) has matching code and cond fields; consequently, on a deal that
finds an existing position, the condition-change re-key branch of
_update_stock_position does not execute — the update is exactly the write-back
of the adjusted position followed by the zero-quantity deletion — and the key
the deletion targets is present in the written-back map. -/
theorem c10_rekey_branch_dead (st : SyncState) (hst : Reachable st) (ak : String)
    (m : StockAcctMap) (hm : alookup st.stock ak = some m) (code : String)
    (cond : StockOrderCond) (p0 : StockPosition)
    (hp : alookup m (code, cond) = some p0) :
    (p0.code = code ∧ p0.cond = cond)
    ∧ (∀ (a : Action) (q pr : Int),
        (updateStockPosition st ak code a q pr cond).futures = st.futures
        ∧ (updateStockPosition st ak code a q pr cond).stock
          = ainsert st.stock ak
              (if (if p0.direction = a then { p0 with quantity := p0.quantity + q }
                    else { p0 with quantity := p0.quantity - q }
                    : StockPosition).quantity = 0
                then aerase (ainsert m (code, cond)
                  (if p0.direction = a then { p0 with quantity := p0.quantity + q }
                    else { p0 with quantity := p0.quantity - q })) (code, cond)
                else ainsert m (code, cond)
                  (if p0.direction = a then { p0 with quantity := p0.quantity + q }
                    else { p0 with quantity := p0.quantity - q })))
    ∧ (∀ (a : Action) (q : Int),
        alookup (ainsert m (code, cond)
            (if p0.direction = a then { p0 with quantity := p0.quantity + q }
              else { p0 with quantity := p0.quantity - q })) (code, cond)
          = some (if p0.direction = a then { p0 with quantity := p0.quantity + q }
              else { p0 with quantity := p0.quantity - q })) := by
  have hcons := reachable_consistent st hst
  have hfields := hcons (ak, m) (alookup_mem _ _ _ hm) ((code, cond), p0)
    (alookup_mem _ _ _ hp)
  simp only [] at hfields
  refine ⟨hfields, fun a q pr => ?_, fun a q => alookup_ainsert_self _ _ _⟩
  have hg : ¬((if p0.direction = a then { p0 with quantity := p0.quantity + q }
      else { p0 with quantity := p0.quantity - q } : StockPosition).cond ≠ cond) := by
    simp [apply_ite StockPosition.cond, hfields.2]
  constructor
  · rfl
  · unfold updateStockPosition
    rw [hm, Option.getD_some]
    simp only []
    rw [hp]
    simp only []
    rw [if_neg hg, if_neg hg]

/-- Witness for c10_rekey_branch_dead: from a state initialized with one Cash
position of quantity 10, a full closing sell goes through write-back and
zero-deletion only. -/
theorem c10_rekey_branch_dead_witness :
    (updateStockPosition
        (initializePositions [(⟨"9100", "111", AccountType.Stock⟩,
          some [ApiPnl.stk ⟨"2330", Action.Buy, 10, 10, StockOrderCond.Cash⟩])])
        "9100111" "2330" Action.Sell 10 0 StockOrderCond.Cash).stock
      = ainsert
          (initializePositions [(⟨"9100", "111", AccountType.Stock⟩,
            some [ApiPnl.stk ⟨"2330", Action.Buy, 10, 10,
              StockOrderCond.Cash⟩])]).stock
          "9100111"
          (aerase (ainsert [(("2330", StockOrderCond.Cash),
              ⟨"2330", Action.Buy, 10, 10, StockOrderCond.Cash⟩)]
            ("2330", StockOrderCond.Cash)
            ⟨"2330", Action.Buy, 0, 10, StockOrderCond.Cash⟩)
            ("2330", StockOrderCond.Cash)) := by
  have h := ((c10_rekey_branch_dead
    (initializePositions [(⟨"9100", "111", AccountType.Stock⟩,
      some [ApiPnl.stk ⟨"2330", Action.Buy, 10, 10, StockOrderCond.Cash⟩])])
    (Reachable.init _) "9100111"
    [(("2330", StockOrderCond.Cash),
      ⟨"2330", Action.Buy, 10, 10, StockOrderCond.Cash⟩)]
    (by decide) "2330" StockOrderCond.Cash
    ⟨"2330", Action.Buy, 10, 10, StockOrderCond.Cash⟩ (by decide)).2.1
    Action.Sell 10 0).2
  refine h.trans ?_
  decide

end SjSync
